import Mathlib

/-!
Shallow embedding of the transaction engine of the witcher trading API
(routers/transactions.ts in both its inline-mutation variant and its
save-hook variant, models/transaction.ts, models/good.ts).

The document store is modelled as explicit state (`Store`); every handler
becomes a function `Store → args → Store × Except Err α`, returning the
store as it stands when the handler responds (mutations persisted by
earlier `save()` calls survive an error response, exactly as in MongoDB).
Mongoose schema validation that guards the mutated paths is modelled in
the corresponding `save` functions: `good.save()` rejects a negative
stock (schema `min: 0`), `transaction.save()` rejects an empty item list,
a quantity below 1, a negative price snapshot or a negative total.
A rejected save throws, reaching the catch-all handler (HTTP 500),
modelled by the `Err.internalStorage` result; the document is then not
persisted. Numbers are modelled as `Int`.
-/

namespace Witcher

/-- Transaction type enumeration from models/transaction.ts. -/
inductive TransactionType where
  | purchase
  | sale
deriving DecidableEq, Repr

/-- Discriminator tag `clientModel` from models/transaction.ts. -/
inductive ClientModel where
  | hunter
  | merchant
deriving DecidableEq, Repr

/-- Typed failures, one per distinct error response of the routers.
`internalStorage` is the catch-all 500 path reached when a mongoose
validator rejects a save. -/
inductive Err where
  | invalidTransactionType
  | clientNotFound
  | goodNotFound
  | insufficientStock
  | transactionNotFound
  | missingParameter
  | internalStorage
deriving DecidableEq, Repr

/-- A Good document (models/good.ts): only the fields the transaction
engine reads or writes. `gid` stands for the Mongo `_id`. -/
structure Good where
  gid : Nat
  name : String
  value : Int
  stock : Int
deriving DecidableEq, Repr

/-- A Hunter or Merchant document, reduced to what the engine uses. -/
structure Client where
  cid : Nat
  name : String
deriving DecidableEq, Repr

/-- An embedded transaction line item (models/transaction.ts). -/
structure TransactionItem where
  good : Nat
  quantity : Int
  priceAtTransaction : Int
deriving DecidableEq, Repr

/-- A Transaction document (models/transaction.ts). -/
structure Transaction where
  tid : Nat
  type : TransactionType
  date : Int
  client : Nat
  clientModel : ClientModel
  items : List TransactionItem
  totalAmount : Int
deriving DecidableEq, Repr

/-- The document store: the four collections plus a counter that models
Mongo object id generation for new transactions. -/
structure Store where
  goods : List Good
  hunters : List Client
  merchants : List Client
  transactions : List Transaction
  nextId : Nat
deriving DecidableEq, Repr

/-- One line of a creation or update request body. -/
structure RequestItem where
  goodName : String
  quantity : Int
deriving DecidableEq, Repr

/-- `GoodModel.findOne({ name })`. -/
def findGoodByName (s : Store) (n : String) : Option Good :=
  s.goods.find? (fun g => g.name == n)

/-- `GoodModel.findById(id)`. -/
def findGoodById (s : Store) (i : Nat) : Option Good :=
  s.goods.find? (fun g => g.gid == i)

/-- `TransactionModel.findById(id)`. -/
def findTransactionById (s : Store) (i : Nat) : Option Transaction :=
  s.transactions.find? (fun t => t.tid == i)

/-- `good.save()`: persists the document, subject to the schema
validator `min: [0, ...]` on `stock`; a violation rejects the save and
the stored document is unchanged. -/
def saveGood (s : Store) (g : Good) : Except Err Store :=
  if g.stock < 0 then .error .internalStorage
  else .ok { s with goods := s.goods.map (fun x => if x.gid == g.gid then g else x) }

/-- The mongoose validators of transactionSchema on the paths the engine
writes: at least one item, quantity at least 1, nonnegative price
snapshot, nonnegative total. -/
def validTransaction (t : Transaction) : Bool :=
  (!t.items.isEmpty) &&
    t.items.all (fun it => decide (1 ≤ it.quantity) && decide (0 ≤ it.priceAtTransaction)) &&
    decide (0 ≤ t.totalAmount)

/-- `new TransactionModel(...)` followed by `transaction.save()` in the
plain model variant (models/transaction.ts, no hook): validate, then
insert the new document. -/
def saveTransactionNew (s : Store) (t : Transaction) : Except Err Store :=
  if validTransaction t then
    .ok { s with transactions := s.transactions ++ [t], nextId := s.nextId + 1 }
  else .error .internalStorage

/-- Client lookup of the POST and PUT handlers: purchase resolves
against the Hunter collection, sale against the Merchant collection. -/
def findClient (s : Store) (ty : TransactionType) (n : String) : Option Client :=
  match ty with
  | .purchase => s.hunters.find? (fun c => c.name == n)
  | .sale => s.merchants.find? (fun c => c.name == n)

/-- The item loop of the inline-mutation POST handler
(src/routers/transactions.ts lines 102-128) and of the new-item loop of
the PUT handler: per item, resolve the Good by name, check stock
sufficiency for purchases, accumulate the price snapshot and the total,
then immediately mutate the stock and save the Good. -/
def processItemsInline (s : Store) (ty : TransactionType) :
    List RequestItem → Store × Except Err (List TransactionItem × Int)
  | [] => (s, .ok ([], 0))
  | it :: rest =>
    match findGoodByName s it.goodName with
    | none => (s, .error .goodNotFound)
    | some g =>
      if ty = .purchase ∧ g.stock < it.quantity then
        (s, .error .insufficientStock)
      else
        let delta : Int := if ty = .purchase then -it.quantity else it.quantity
        match saveGood s { g with stock := g.stock + delta } with
        | .error e => (s, .error e)
        | .ok s1 =>
          match processItemsInline s1 ty rest with
          | (s2, .error e) => (s2, .error e)
          | (s2, .ok (acc, total)) =>
            (s2, .ok ({ good := g.gid, quantity := it.quantity,
                        priceAtTransaction := g.value } :: acc,
                      g.value * it.quantity + total))

/-- `POST /transactions` of the inline-mutation router
(src/routers/transactions.ts lines 77-144). `ty?` is `none` when the
request type is absent or not one of purchase and sale; `now` is the
default timestamp taken at creation. -/
def createTransaction (s : Store) (ty? : Option TransactionType)
    (clientName : String) (items : List RequestItem) (now : Int) :
    Store × Except Err Transaction :=
  match ty? with
  | none => (s, .error .invalidTransactionType)
  | some ty =>
    match findClient s ty clientName with
    | none => (s, .error .clientNotFound)
    | some client =>
      match processItemsInline s ty items with
      | (s1, .error e) => (s1, .error e)
      | (s1, .ok (procItems, total)) =>
        let t : Transaction :=
          { tid := s1.nextId, type := ty, date := now, client := client.cid,
            clientModel := if ty = .purchase then .hunter else .merchant,
            items := procItems, totalAmount := total }
        match saveTransactionNew s1 t with
        | .error e => (s1, .error e)
        | .ok s2 => (s2, .ok t)

/-- The item loop of the hook-model POST handler (the second router of
the sources, lines 309-333): per item, resolve the Good by name, check
stock sufficiency for purchases, and accumulate the snapshot and the
total, with no stock mutation in the loop. -/
def resolveItemsHook (s : Store) (ty : TransactionType) :
    List RequestItem → Except Err (List TransactionItem × Int)
  | [] => .ok ([], 0)
  | it :: rest =>
    match findGoodByName s it.goodName with
    | none => .error .goodNotFound
    | some g =>
      if ty = .purchase ∧ g.stock < it.quantity then
        .error .insufficientStock
      else
        match resolveItemsHook s ty rest with
        | .error e => .error e
        | .ok (acc, total) =>
          .ok ({ good := g.gid, quantity := it.quantity,
                 priceAtTransaction := g.value } :: acc,
               g.value * it.quantity + total)

/-- The body of `transactionSchema.pre(save)` (hook-model variant): per
item, resolve the Good by id, silently skipping missing Goods, and add
the signed stock delta. -/
def runSaveHook (s : Store) (ty : TransactionType) :
    List TransactionItem → Store × Except Err Unit
  | [] => (s, .ok ())
  | it :: rest =>
    match findGoodById s it.good with
    | none => runSaveHook s ty rest
    | some g =>
      let delta : Int := if ty = .purchase then -it.quantity else it.quantity
      match saveGood s { g with stock := g.stock + delta } with
      | .error e => (s, .error e)
      | .ok s1 => runSaveHook s1 ty rest

/-- `transaction.save()` in the hook-model variant: mongoose runs the
schema validators first, then the user pre-save hook. The hook mutates
stock only on a new document; re-saving an existing document replaces
the stored record and leaves every Good untouched. -/
def saveTransactionHooked (s : Store) (t : Transaction) (isNew : Bool) :
    Store × Except Err Unit :=
  if validTransaction t then
    if isNew then
      match runSaveHook s t.type t.items with
      | (s1, .error e) => (s1, .error e)
      | (s1, .ok _) =>
        ({ s1 with transactions := s1.transactions ++ [t], nextId := s1.nextId + 1 }, .ok ())
    else
      ({ s with transactions := s.transactions.map (fun x => if x.tid == t.tid then t else x) },
       .ok ())
  else (s, .error .internalStorage)

/-- `POST /transactions` of the hook-model router: the loop only
resolves and validates; all stock mutation happens inside the pre-save
hook of `transaction.save()`. -/
def createTransactionHook (s : Store) (ty? : Option TransactionType)
    (clientName : String) (items : List RequestItem) (now : Int) :
    Store × Except Err Transaction :=
  match ty? with
  | none => (s, .error .invalidTransactionType)
  | some ty =>
    match findClient s ty clientName with
    | none => (s, .error .clientNotFound)
    | some client =>
      match resolveItemsHook s ty items with
      | .error e => (s, .error e)
      | .ok (procItems, total) =>
        let t : Transaction :=
          { tid := s.nextId, type := ty, date := now, client := client.cid,
            clientModel := if ty = .purchase then .hunter else .merchant,
            items := procItems, totalAmount := total }
        match saveTransactionHooked s t true with
        | (s1, .error e) => (s1, .error e)
        | (s1, .ok _) => (s1, .ok t)

/-- The reversal loop shared by `DELETE /transactions/:id` and the first
loop of `PUT /transactions/:id`: per stored item, resolve the Good by
id; a missing Good is skipped; otherwise the inverse of the original
delta is applied and the Good saved. -/
def reverseItems (s : Store) (ty : TransactionType) :
    List TransactionItem → Store × Except Err Unit
  | [] => (s, .ok ())
  | it :: rest =>
    match findGoodById s it.good with
    | none => reverseItems s ty rest
    | some g =>
      let delta : Int := if ty = .purchase then it.quantity else -it.quantity
      match saveGood s { g with stock := g.stock + delta } with
      | .error e => (s, .error e)
      | .ok s1 => reverseItems s1 ty rest

/-- `DELETE /transactions/:id`: find the transaction, reverse the stock
effect of every item, then remove the record. -/
def deleteTransaction (s : Store) (id : Nat) : Store × Except Err Unit :=
  match findTransactionById s id with
  | none => (s, .error .transactionNotFound)
  | some t =>
    match reverseItems s t.type t.items with
    | (s1, .error e) => (s1, .error e)
    | (s1, .ok _) =>
      ({ s1 with transactions := s1.transactions.filter (fun x => !(x.tid == id)) }, .ok ())

/-- `PUT /transactions/:id` (hook-model router, lines 581-665): validate
the type, find the transaction, resolve the new client, reverse the
existing items, run the inline new-item loop, then overwrite the record
via a non-new save (the pre-save hook does not fire again). -/
def updateTransaction (s : Store) (id : Nat) (ty? : Option TransactionType)
    (clientName : String) (items : List RequestItem) :
    Store × Except Err Transaction :=
  match ty? with
  | none => (s, .error .invalidTransactionType)
  | some ty =>
    match findTransactionById s id with
    | none => (s, .error .transactionNotFound)
    | some t =>
      match findClient s ty clientName with
      | none => (s, .error .clientNotFound)
      | some client =>
        match reverseItems s t.type t.items with
        | (s1, .error e) => (s1, .error e)
        | (s1, .ok _) =>
          match processItemsInline s1 ty items with
          | (s2, .error e) => (s2, .error e)
          | (s2, .ok (procItems, total)) =>
            let t2 : Transaction :=
              { t with
                type := ty
                client := client.cid
                clientModel := if ty = .purchase then .hunter else .merchant
                items := procItems
                totalAmount := total }
            match saveTransactionHooked s2 t2 false with
            | (s3, .error e) => (s3, .error e)
            | (s3, .ok _) => (s3, .ok t2)

/-- The type filter of `GET /transactions/date-range`: a supplied type
string is honoured only when it is one of the two valid values,
otherwise it is ignored. -/
def parseTypeFilter (raw : Option String) : Option TransactionType :=
  match raw with
  | some "purchase" => some .purchase
  | some "sale" => some .sale
  | _ => none

/-- Whether a stored transaction passes the date-range filter
`{ date: { gte start, lte end }, type? }`. -/
def dateRangeMatch (st en : Int) (tyF : Option TransactionType) (t : Transaction) : Bool :=
  decide (st ≤ t.date) && decide (t.date ≤ en) &&
    (match tyF with
     | some ty => t.type == ty
     | none => true)

/-- `GET /transactions/date-range`: absent start or end date is a 400;
otherwise the matching transactions are returned, possibly none. -/
def findByDateRange (s : Store) (startDate? endDate? : Option Int)
    (typeRaw : Option String) : Except Err (List Transaction) :=
  match startDate?, endDate? with
  | some st, some en =>
    .ok (s.transactions.filter (dateRangeMatch st en (parseTypeFilter typeRaw)))
  | _, _ => .error .missingParameter

/-- Every Good in the store has nonnegative stock. -/
def stocksNonneg (s : Store) : Prop := ∀ g ∈ s.goods, 0 ≤ g.stock

/-- The Good collection carries pairwise distinct Mongo ids. -/
def goodIdsDistinct (s : Store) : Prop :=
  s.goods.Pairwise (fun a b => a.gid ≠ b.gid)

/-- Every stored transaction id is below the fresh-id counter. -/
def tidsFresh (s : Store) : Prop := ∀ t ∈ s.transactions, t.tid < s.nextId

/-- The sum claimed for `totalAmount` by the spec: quantity times price
snapshot over the current items. -/
def itemsTotal (l : List TransactionItem) : Int :=
  (l.map (fun it => it.quantity * it.priceAtTransaction)).sum

/-- Some Good in the list carries the given Mongo id. -/
def hasGid (l : List Good) (i : Nat) : Prop := ∃ g ∈ l, g.gid = i

/-- Pointwise stock adjustment: the Good with the given id gets its
stock shifted by the delta, any other Good is untouched. -/
def adjPoint (i : Nat) (d : Int) (g : Good) : Good :=
  if g.gid = i then { g with stock := g.stock + d } else g

/-- Stock adjustment across the collection: the net effect of one
read-modify-write through `good.save()`. -/
def adjust (l : List Good) (i : Nat) (d : Int) : List Good :=
  l.map (adjPoint i d)

/-- Net delta that a list of (gid, delta) pairs contributes to one id. -/
def sumFor (i : Nat) : List (Nat × Int) → Int
  | [] => 0
  | (j, d) :: ds => (if j = i then d else 0) + sumFor i ds

/-- Sequential application of a list of stock adjustments. -/
def foldAdjust (l : List Good) : List (Nat × Int) → List Good
  | [] => l
  | (j, d) :: ds => foldAdjust (adjust l j d) ds

/-- The signed stock deltas that creating a transaction of the given
type applies per item: minus the quantity for a purchase, plus the
quantity for a sale. -/
def creationDeltas (ty : TransactionType) (items : List TransactionItem) : List (Nat × Int) :=
  items.map (fun it => (it.good, if ty = .purchase then -it.quantity else it.quantity))

lemma adjPoint_gid (i : Nat) (d : Int) (g : Good) : (adjPoint i d g).gid = g.gid := by
  unfold adjPoint
  by_cases hi : g.gid = i <;> simp [hi]

lemma adjPoint_comm (i j : Nat) (d e : Int) (g : Good) :
    adjPoint j e (adjPoint i d g) = adjPoint i d (adjPoint j e g) := by
  unfold adjPoint
  by_cases hi : g.gid = i <;> by_cases hj : g.gid = j <;>
    simp [hi, hj] <;> cases g <;> simp_all <;> ring

lemma adjPoint_cancel (i : Nat) (d : Int) (g : Good) :
    adjPoint i (-d) (adjPoint i d g) = g := by
  unfold adjPoint
  by_cases hi : g.gid = i <;> simp [hi] <;> cases g <;> simp_all

lemma adjust_gid_map (l : List Good) (i : Nat) (d : Int) :
    (adjust l i d).map (fun g => g.gid) = l.map (fun g => g.gid) := by
  unfold adjust
  rw [List.map_map]
  apply List.map_congr_left
  intro g _
  exact adjPoint_gid i d g

lemma hasGid_iff_gidMem (l : List Good) (i : Nat) :
    hasGid l i ↔ i ∈ l.map (fun g => g.gid) := by
  unfold hasGid
  simp [List.mem_map, eq_comm]

lemma hasGid_adjust (l : List Good) (i j : Nat) (d : Int) :
    hasGid (adjust l j d) i ↔ hasGid l i := by
  rw [hasGid_iff_gidMem, hasGid_iff_gidMem, adjust_gid_map]

lemma adjust_comm (l : List Good) (i j : Nat) (d e : Int) :
    adjust (adjust l i d) j e = adjust (adjust l j e) i d := by
  unfold adjust
  rw [List.map_map, List.map_map]
  apply List.map_congr_left
  intro g _
  exact adjPoint_comm i j d e g

lemma adjust_adjust_cancel (l : List Good) (i : Nat) (d : Int) :
    adjust (adjust l i d) i (-d) = l := by
  unfold adjust
  rw [List.map_map]
  have : (adjPoint i (-d) ∘ adjPoint i d) = id := by
    funext g
    exact adjPoint_cancel i d g
  rw [this, List.map_id]

lemma foldAdjust_eq_map (ds : List (Nat × Int)) :
    ∀ l : List Good,
      foldAdjust l ds = l.map (fun g => { g with stock := g.stock + sumFor g.gid ds }) := by
  induction ds with
  | nil =>
    intro l
    have : (fun g : Good => { g with stock := g.stock + sumFor g.gid [] }) = id := by
      funext g
      cases g
      simp [sumFor]
    simp [foldAdjust, this]
  | cons hd tl ih =>
    intro l
    obtain ⟨j, d⟩ := hd
    show foldAdjust (adjust l j d) tl = _
    rw [ih]
    unfold adjust
    rw [List.map_map]
    apply List.map_congr_left
    intro g _
    show (fun g : Good => { g with stock := g.stock + sumFor g.gid tl }) (adjPoint j d g) =
        { g with stock := g.stock + sumFor g.gid ((j, d) :: tl) }
    unfold adjPoint
    by_cases h : g.gid = j <;> cases g <;> simp_all [sumFor, eq_comm] <;> ring

lemma foldAdjust_gid_map (l : List Good) (ds : List (Nat × Int)) :
    (foldAdjust l ds).map (fun g => g.gid) = l.map (fun g => g.gid) := by
  rw [foldAdjust_eq_map]
  rw [List.map_map]
  rfl

lemma hasGid_foldAdjust (l : List Good) (ds : List (Nat × Int)) (i : Nat) :
    hasGid (foldAdjust l ds) i ↔ hasGid l i := by
  rw [hasGid_iff_gidMem, hasGid_iff_gidMem, foldAdjust_gid_map]

lemma adjust_foldAdjust_comm (l : List Good) (ds : List (Nat × Int)) (i : Nat) (e : Int) :
    adjust (foldAdjust l ds) i e = foldAdjust (adjust l i e) ds := by
  induction ds generalizing l with
  | nil => rfl
  | cons hd tl ih =>
    obtain ⟨j, d⟩ := hd
    show adjust (foldAdjust (adjust l j d) tl) i e = foldAdjust (adjust (adjust l i e) j d) tl
    rw [ih, adjust_comm]

lemma eq_of_gid_eq {l : List Good} (hl : l.Pairwise (fun a b => a.gid ≠ b.gid))
    {x y : Good} (hx : x ∈ l) (hy : y ∈ l) (h : x.gid = y.gid) : x = y := by
  induction l with
  | nil => cases hx
  | cons a tl ih =>
    rcases List.pairwise_cons.mp hl with ⟨ha, htl⟩
    rcases List.mem_cons.mp hx with hx1 | hx1 <;> rcases List.mem_cons.mp hy with hy1 | hy1
    · rw [hx1, hy1]
    · exact absurd h (hx1 ▸ ha y hy1)
    · exact absurd h.symm (hy1 ▸ ha x hx1)
    · exact ih htl hx1 hy1

lemma saveGood_eq_ok {s : Store} {g : Good} (h : 0 ≤ g.stock) :
    saveGood s g =
      .ok { s with goods := s.goods.map (fun x => if x.gid == g.gid then g else x) } := by
  unfold saveGood
  rw [if_neg (by omega)]

lemma saveGood_ok_inv {s s1 : Store} {g : Good} (h : saveGood s g = .ok s1) :
    0 ≤ g.stock ∧
      s1 = { s with goods := s.goods.map (fun x => if x.gid == g.gid then g else x) } := by
  unfold saveGood at h
  split at h
  · cases h
  · rename_i hneg
    refine ⟨by omega, ?_⟩
    cases h
    rfl

lemma saveGood_adjust {s : Store} {g : Good} {d : Int}
    (hdist : s.goods.Pairwise (fun a b => a.gid ≠ b.gid))
    (hmem : g ∈ s.goods) (hnn : 0 ≤ g.stock + d) :
    saveGood s { g with stock := g.stock + d } =
      .ok { s with goods := adjust s.goods g.gid d } := by
  rw [saveGood_eq_ok (g := { g with stock := g.stock + d }) hnn]
  have hmap : s.goods.map
      (fun x => if x.gid == ({ g with stock := g.stock + d } : Good).gid
        then ({ g with stock := g.stock + d } : Good) else x) = adjust s.goods g.gid d := by
    unfold adjust
    apply List.map_congr_left
    intro x hxmem
    by_cases hx : x.gid = g.gid
    · have hxg : x = g := eq_of_gid_eq hdist hxmem hmem hx
      subst hxg
      simp [adjPoint]
    · simp [adjPoint, hx]
  rw [hmap]

lemma saveGood_stocksNonneg {s s1 : Store} {g : Good}
    (h : saveGood s g = .ok s1) (hs : stocksNonneg s) : stocksNonneg s1 := by
  obtain ⟨hg, hs1⟩ := saveGood_ok_inv h
  subst hs1
  intro x hx
  rcases List.mem_map.mp hx with ⟨y, hy, hyx⟩
  by_cases hc : y.gid == g.gid
  · rw [if_pos hc] at hyx
    subst hyx
    exact hg
  · rw [if_neg hc] at hyx
    subst hyx
    exact hs y hy

lemma saveGood_gid_map {s s1 : Store} {g : Good} (h : saveGood s g = .ok s1) :
    s1.goods.map (fun x => x.gid) = s.goods.map (fun x => x.gid) := by
  obtain ⟨_, hs1⟩ := saveGood_ok_inv h
  subst hs1
  show (s.goods.map _).map _ = _
  rw [List.map_map]
  apply List.map_congr_left
  intro x _
  by_cases hc : x.gid == g.gid
  · have : x.gid = g.gid := by simpa using hc
    simp [Function.comp, hc, this]
  · simp [Function.comp, hc]

lemma saveGood_frame {s s1 : Store} {g : Good} (h : saveGood s g = .ok s1) :
    s1.hunters = s.hunters ∧ s1.merchants = s.merchants ∧
      s1.transactions = s.transactions ∧ s1.nextId = s.nextId := by
  obtain ⟨_, hs1⟩ := saveGood_ok_inv h
  subst hs1
  exact ⟨rfl, rfl, rfl, rfl⟩

lemma pairwise_gid_of_map_eq {l1 l2 : List Good}
    (h : l1.map (fun x => x.gid) = l2.map (fun x => x.gid))
    (hd : l2.Pairwise (fun a b => a.gid ≠ b.gid)) :
    l1.Pairwise (fun a b => a.gid ≠ b.gid) := by
  have h2 : (l2.map (fun x => x.gid)).Pairwise (fun a b => a ≠ b) :=
    (List.pairwise_map).mpr hd
  rw [← h] at h2
  exact (List.pairwise_map).mp h2

lemma processItemsInline_fst_frame (ty : TransactionType) (reqs : List RequestItem) :
    ∀ s : Store,
      (processItemsInline s ty reqs).1.hunters = s.hunters ∧
      (processItemsInline s ty reqs).1.merchants = s.merchants ∧
      (processItemsInline s ty reqs).1.transactions = s.transactions ∧
      (processItemsInline s ty reqs).1.nextId = s.nextId := by
  induction reqs with
  | nil => intro s; simp [processItemsInline]
  | cons it rest ih =>
    intro s
    simp only [processItemsInline]
    cases hfind : findGoodByName s it.goodName with
    | none => simp
    | some g =>
      simp only []
      by_cases hc : ty = .purchase ∧ g.stock < it.quantity
      · rw [if_pos hc]
        exact ⟨rfl, rfl, rfl, rfl⟩
      · rw [if_neg hc]
        cases hsv : saveGood s { g with stock := g.stock +
            if ty = .purchase then -it.quantity else it.quantity } with
        | error e => exact ⟨rfl, rfl, rfl, rfl⟩
        | ok s1 =>
          simp only []
          obtain ⟨h1, h2, h3, h4⟩ := saveGood_frame hsv
          cases hrec : processItemsInline s1 ty rest with
          | mk s2 r =>
            have hih := ih s1
            rw [hrec] at hih
            cases r with
            | error e =>
              exact ⟨hih.1.trans h1, hih.2.1.trans h2, hih.2.2.1.trans h3, hih.2.2.2.trans h4⟩
            | ok v =>
              obtain ⟨acc, total⟩ := v
              exact ⟨hih.1.trans h1, hih.2.1.trans h2, hih.2.2.1.trans h3, hih.2.2.2.trans h4⟩

lemma processItemsInline_fst_nonneg (ty : TransactionType) (reqs : List RequestItem) :
    ∀ s : Store, stocksNonneg s → stocksNonneg (processItemsInline s ty reqs).1 := by
  induction reqs with
  | nil => intro s hs; exact hs
  | cons it rest ih =>
    intro s hs
    simp only [processItemsInline]
    cases hfind : findGoodByName s it.goodName with
    | none => exact hs
    | some g =>
      simp only []
      by_cases hc : ty = .purchase ∧ g.stock < it.quantity
      · rw [if_pos hc]
        exact hs
      · rw [if_neg hc]
        cases hsv : saveGood s { g with stock := g.stock +
            if ty = .purchase then -it.quantity else it.quantity } with
        | error e => exact hs
        | ok s1 =>
          simp only []
          have hs1 := saveGood_stocksNonneg hsv hs
          cases hrec : processItemsInline s1 ty rest with
          | mk s2 r =>
            have hih := ih s1 hs1
            rw [hrec] at hih
            cases r with
            | error e => exact hih
            | ok v =>
              obtain ⟨acc, total⟩ := v
              exact hih

lemma processItemsInline_ok (ty : TransactionType) (reqs : List RequestItem) :
    ∀ (s s2 : Store) (txns : List TransactionItem) (total : Int),
      s.goods.Pairwise (fun a b => a.gid ≠ b.gid) →
      processItemsInline s ty reqs = (s2, .ok (txns, total)) →
      s2.goods = foldAdjust s.goods (creationDeltas ty txns) ∧
      total = itemsTotal txns ∧
      (∀ it2 ∈ txns, hasGid s.goods it2.good) := by
  induction reqs with
  | nil =>
    intro s s2 txns total hdist h
    simp only [processItemsInline, Prod.mk.injEq, Except.ok.injEq] at h
    obtain ⟨h1, h2, h3⟩ := h
    subst h1
    subst h2
    subst h3
    refine ⟨rfl, rfl, ?_⟩
    intro it2 hit2
    cases hit2
  | cons it rest ih =>
    intro s s2 txns total hdist h
    simp only [processItemsInline] at h
    cases hfind : findGoodByName s it.goodName with
    | none =>
      rw [hfind] at h
      simp at h
    | some g =>
      rw [hfind] at h
      simp only [] at h
      by_cases hc : ty = .purchase ∧ g.stock < it.quantity
      · rw [if_pos hc] at h
        simp at h
      · rw [if_neg hc] at h
        have hmem : g ∈ s.goods := List.mem_of_find?_eq_some hfind
        cases hsv : saveGood s { g with stock := g.stock +
            if ty = .purchase then -it.quantity else it.quantity } with
        | error e =>
          rw [hsv] at h
          simp at h
        | ok s1 =>
          rw [hsv] at h
          simp only [] at h
          have hnn := (saveGood_ok_inv hsv).1
          have hadj := saveGood_adjust hdist hmem hnn
          have hs1 : s1 = { s with goods := adjust s.goods g.gid (if ty = .purchase then -it.quantity else it.quantity) } := by
            have hh := hsv.symm.trans hadj
            simpa using hh
          have hdist1 : s1.goods.Pairwise (fun a b => a.gid ≠ b.gid) :=
            pairwise_gid_of_map_eq (saveGood_gid_map hsv) hdist
          cases hrec : processItemsInline s1 ty rest with
          | mk s2m r =>
            rw [hrec] at h
            cases r with
            | error e => simp at h
            | ok v =>
              obtain ⟨acc, racc⟩ := v
              simp only [Prod.mk.injEq, Except.ok.injEq] at h
              obtain ⟨hA, hB, hC⟩ := h
              rw [← hA, ← hB, ← hC]
              obtain ⟨ih1, ih2, ih3⟩ := ih s1 s2m acc racc hdist1 hrec
              refine ⟨?_, ?_, ?_⟩
              · rw [ih1, hs1]
                rfl
              · rw [ih2]
                unfold itemsTotal
                simp only [List.map_cons, List.sum_cons]
                ring
              · intro it2 hit2
                rcases List.mem_cons.mp hit2 with h0 | h0
                · subst h0
                  exact ⟨g, hmem, rfl⟩
                · have := ih3 it2 h0
                  rw [hs1] at this
                  exact (hasGid_adjust _ _ _ _).mp this

lemma reverseItems_fst_frame (ty : TransactionType) (items : List TransactionItem) :
    ∀ s : Store,
      (reverseItems s ty items).1.hunters = s.hunters ∧
      (reverseItems s ty items).1.merchants = s.merchants ∧
      (reverseItems s ty items).1.transactions = s.transactions ∧
      (reverseItems s ty items).1.nextId = s.nextId := by
  induction items with
  | nil => intro s; exact ⟨rfl, rfl, rfl, rfl⟩
  | cons it rest ih =>
    intro s
    simp only [reverseItems]
    cases hfind : findGoodById s it.good with
    | none => exact ih s
    | some g =>
      simp only []
      cases hsv : saveGood s { g with stock := g.stock +
          if ty = .purchase then it.quantity else -it.quantity } with
      | error e => exact ⟨rfl, rfl, rfl, rfl⟩
      | ok s1 =>
        simp only []
        obtain ⟨h1, h2, h3, h4⟩ := saveGood_frame hsv
        obtain ⟨i1, i2, i3, i4⟩ := ih s1
        exact ⟨i1.trans h1, i2.trans h2, i3.trans h3, i4.trans h4⟩

lemma reverseItems_fst_nonneg (ty : TransactionType) (items : List TransactionItem) :
    ∀ s : Store, stocksNonneg s → stocksNonneg (reverseItems s ty items).1 := by
  induction items with
  | nil => intro s hs; exact hs
  | cons it rest ih =>
    intro s hs
    simp only [reverseItems]
    cases hfind : findGoodById s it.good with
    | none => exact ih s hs
    | some g =>
      simp only []
      cases hsv : saveGood s { g with stock := g.stock +
          if ty = .purchase then it.quantity else -it.quantity } with
      | error e => exact hs
      | ok s1 =>
        simp only []
        exact ih s1 (saveGood_stocksNonneg hsv hs)

lemma runSaveHook_fst_frame (ty : TransactionType) (items : List TransactionItem) :
    ∀ s : Store,
      (runSaveHook s ty items).1.hunters = s.hunters ∧
      (runSaveHook s ty items).1.merchants = s.merchants ∧
      (runSaveHook s ty items).1.transactions = s.transactions ∧
      (runSaveHook s ty items).1.nextId = s.nextId := by
  induction items with
  | nil => intro s; exact ⟨rfl, rfl, rfl, rfl⟩
  | cons it rest ih =>
    intro s
    simp only [runSaveHook]
    cases hfind : findGoodById s it.good with
    | none => exact ih s
    | some g =>
      simp only []
      cases hsv : saveGood s { g with stock := g.stock +
          if ty = .purchase then -it.quantity else it.quantity } with
      | error e => exact ⟨rfl, rfl, rfl, rfl⟩
      | ok s1 =>
        simp only []
        obtain ⟨h1, h2, h3, h4⟩ := saveGood_frame hsv
        obtain ⟨i1, i2, i3, i4⟩ := ih s1
        exact ⟨i1.trans h1, i2.trans h2, i3.trans h3, i4.trans h4⟩

lemma runSaveHook_fst_nonneg (ty : TransactionType) (items : List TransactionItem) :
    ∀ s : Store, stocksNonneg s → stocksNonneg (runSaveHook s ty items).1 := by
  induction items with
  | nil => intro s hs; exact hs
  | cons it rest ih =>
    intro s hs
    simp only [runSaveHook]
    cases hfind : findGoodById s it.good with
    | none => exact ih s hs
    | some g =>
      simp only []
      cases hsv : saveGood s { g with stock := g.stock +
          if ty = .purchase then -it.quantity else it.quantity } with
      | error e => exact hs
      | ok s1 =>
        simp only []
        exact ih s1 (saveGood_stocksNonneg hsv hs)

lemma saveGood_error_internal {s : Store} {g : Good} {e : Err}
    (h : saveGood s g = .error e) : e = .internalStorage := by
  unfold saveGood at h
  split at h
  · injection h with he
    exact he.symm
  · cases h

lemma runSaveHook_error_internal (ty : TransactionType) (items : List TransactionItem) :
    ∀ (s : Store) (e : Err), (runSaveHook s ty items).2 = .error e → e = .internalStorage := by
  induction items with
  | nil => intro s e h; cases h
  | cons it rest ih =>
    intro s e h
    simp only [runSaveHook] at h
    cases hfind : findGoodById s it.good with
    | none =>
      rw [hfind] at h
      exact ih s e h
    | some g =>
      rw [hfind] at h
      simp only [] at h
      cases hsv : saveGood s { g with stock := g.stock +
          if ty = .purchase then -it.quantity else it.quantity } with
      | error e2 =>
        rw [hsv] at h
        simp only [] at h
        injection h with he
        subst he
        exact saveGood_error_internal hsv
      | ok s1 =>
        rw [hsv] at h
        simp only [] at h
        exact ih s1 e h

lemma resolveItemsHook_ok (ty : TransactionType) (reqs : List RequestItem) :
    ∀ (s : Store) (txns : List TransactionItem) (total : Int),
      resolveItemsHook s ty reqs = .ok (txns, total) →
      total = itemsTotal txns := by
  induction reqs with
  | nil =>
    intro s txns total h
    simp only [resolveItemsHook, Except.ok.injEq, Prod.mk.injEq] at h
    obtain ⟨h1, h2⟩ := h
    rw [← h1, ← h2]
    rfl
  | cons it rest ih =>
    intro s txns total h
    simp only [resolveItemsHook] at h
    cases hfind : findGoodByName s it.goodName with
    | none =>
      rw [hfind] at h
      cases h
    | some g =>
      rw [hfind] at h
      simp only [] at h
      by_cases hc : ty = .purchase ∧ g.stock < it.quantity
      · rw [if_pos hc] at h
        cases h
      · rw [if_neg hc] at h
        cases hrec : resolveItemsHook s ty rest with
        | error e =>
          rw [hrec] at h
          cases h
        | ok v =>
          obtain ⟨acc, racc⟩ := v
          rw [hrec] at h
          simp only [Except.ok.injEq, Prod.mk.injEq] at h
          obtain ⟨h1, h2⟩ := h
          rw [← h1, ← h2]
          have := ih s acc racc hrec
          unfold itemsTotal
          simp only [List.map_cons, List.sum_cons]
          unfold itemsTotal at this
          rw [← this]
          ring

lemma find?_gid_map {l : List Good} (f : Good → Good) (hf : ∀ g, (f g).gid = g.gid)
    (i : Nat) :
    (l.map f).find? (fun g => g.gid == i) = (l.find? (fun g => g.gid == i)).map f := by
  rw [List.find?_map]
  have hp : ((fun g : Good => g.gid == i) ∘ f) = (fun g : Good => g.gid == i) := by
    funext g
    simp [Function.comp, hf]
  rw [hp]

lemma find?_gid_of_hasGid {l : List Good} {i : Nat} (h : hasGid l i) :
    ∃ g0, g0 ∈ l ∧ l.find? (fun g => g.gid == i) = some g0 ∧ g0.gid = i := by
  obtain ⟨g, hg, hgid⟩ := h
  have hsome : (l.find? (fun g => g.gid == i)).isSome := by
    rw [List.find?_isSome]
    exact ⟨g, hg, by simpa using hgid⟩
  obtain ⟨g0, hg0⟩ := Option.isSome_iff_exists.mp hsome
  refine ⟨g0, List.mem_of_find?_eq_some hg0, hg0, ?_⟩
  simpa using List.find?_some hg0

lemma mem_foldAdjust {l : List Good} {ds : List (Nat × Int)} {g : Good} :
    g ∈ foldAdjust l ds ↔
      ∃ g0 ∈ l, { g0 with stock := g0.stock + sumFor g0.gid ds } = g := by
  rw [foldAdjust_eq_map]
  simp [List.mem_map]

lemma sumFor_creationDeltas_sale_nonneg (items : List TransactionItem) (i : Nat)
    (h : ∀ it ∈ items, 0 ≤ it.quantity) :
    0 ≤ sumFor i (creationDeltas .sale items) := by
  induction items with
  | nil => simp [creationDeltas, sumFor]
  | cons it rest ih =>
    show 0 ≤ (if it.good = i then (if TransactionType.sale = TransactionType.purchase then -it.quantity else it.quantity) else 0) + sumFor i (creationDeltas .sale rest)
    have h1 : 0 ≤ it.quantity := h it (List.mem_cons_self it rest)
    have h2 := ih (fun x hx => h x (List.mem_cons_of_mem it hx))
    have h3 : (if TransactionType.sale = TransactionType.purchase then -it.quantity else it.quantity) = it.quantity := by
      rw [if_neg (by decide)]
    rw [h3]
    by_cases hg : it.good = i
    · rw [if_pos hg]
      omega
    · rw [if_neg hg]
      omega

lemma pairwise_foldAdjust {l : List Good} {ds : List (Nat × Int)}
    (h : l.Pairwise (fun a b => a.gid ≠ b.gid)) :
    (foldAdjust l ds).Pairwise (fun a b => a.gid ≠ b.gid) :=
  pairwise_gid_of_map_eq (foldAdjust_gid_map l ds) h

lemma hasGid_of_goods_eq_foldAdjust {sp : Store} {l0 : List Good}
    {ds : List (Nat × Int)} {i : Nat} (hg : sp.goods = foldAdjust l0 ds)
    (h : hasGid l0 i) : hasGid sp.goods i := by
  rw [hg, hasGid_foldAdjust]
  exact h

lemma adjPoint_cancel2 (i : Nat) (d e : Int) (h : d + e = 0) (g : Good) :
    adjPoint i e (adjPoint i d g) = g := by
  unfold adjPoint
  by_cases hi : g.gid = i
  · simp [hi]
    cases g
    simp_all
    omega
  · simp [hi]

lemma adjust_adjust_cancel2 (l : List Good) (i : Nat) (d e : Int) (h : d + e = 0) :
    adjust (adjust l i d) i e = l := by
  unfold adjust
  rw [List.map_map]
  have hfun : (adjPoint i e ∘ adjPoint i d) = id := by
    funext g
    exact adjPoint_cancel2 i d e h g
  rw [hfun, List.map_id]

lemma reverseItems_cons_found {sp : Store} {ty : TransactionType} {it : TransactionItem}
    {rest : List TransactionItem} {g : Good} (hfind : findGoodById sp it.good = some g) :
    reverseItems sp ty (it :: rest) =
      match saveGood sp { g with stock := g.stock + (if ty = .purchase then it.quantity else -it.quantity) } with
      | .error e => (sp, .error e)
      | .ok s1 => reverseItems s1 ty rest := by
  simp only [reverseItems]
  rw [hfind]

lemma match_reverse_save_ok {sp s1 : Store} {g : Good} {d : Int} {ty : TransactionType}
    {rest : List TransactionItem} (h : saveGood sp { g with stock := g.stock + d } = .ok s1) :
    (match saveGood sp { g with stock := g.stock + d } with
      | .error e => (sp, .error e)
      | .ok s2 => reverseItems s2 ty rest) = reverseItems s1 ty rest := by
  rw [h]

lemma reverseItems_restores (ty : TransactionType) (txns : List TransactionItem) :
    ∀ (l0 : List Good) (sp : Store),
      sp.goods = foldAdjust l0 (creationDeltas ty txns) →
      l0.Pairwise (fun a b => a.gid ≠ b.gid) →
      (∀ g ∈ l0, 0 ≤ g.stock) →
      (∀ g ∈ sp.goods, 0 ≤ g.stock) →
      (∀ it ∈ txns, 0 ≤ it.quantity ∧ hasGid l0 it.good) →
      reverseItems sp ty txns = ({ sp with goods := l0 }, .ok ()) := by
  induction txns with
  | nil =>
    intro l0 sp hgoods _ _ _ _
    have hsp : ({ sp with goods := l0 } : Store) = sp := by
      have hg : sp.goods = l0 := hgoods
      cases sp
      simp_all
    rw [hsp]
    rfl
  | cons it rest ih =>
    intro l0 sp hgoods hdist hl0 hsp hitems
    obtain ⟨hq, hhas⟩ := hitems it (List.mem_cons_self it rest)
    have hitems2 : ∀ x ∈ rest, 0 ≤ x.quantity ∧ hasGid l0 x.good :=
      fun x hx => hitems x (List.mem_cons_of_mem it hx)
    have hgoods2 : sp.goods = l0.map (fun g => { g with stock := g.stock + sumFor g.gid (creationDeltas ty (it :: rest)) }) := by
      rw [hgoods, foldAdjust_eq_map]
    obtain ⟨g0, hg0mem, hg0find, hg0gid⟩ := find?_gid_of_hasGid hhas
    have hfind : findGoodById sp it.good = some ({ g0 with stock := g0.stock + sumFor g0.gid (creationDeltas ty (it :: rest)) } : Good) := by
      unfold findGoodById
      rw [hgoods2, find?_gid_map (fun g => ({ g with stock := g.stock + sumFor g.gid (creationDeltas ty (it :: rest)) } : Good)) (fun g => rfl) it.good, hg0find]
      rfl
    have hsumr : sumFor g0.gid (creationDeltas ty (it :: rest)) = (if ty = .purchase then -it.quantity else it.quantity) + sumFor g0.gid (creationDeltas ty rest) := by
      show (if it.good = g0.gid then (if ty = .purchase then -it.quantity else it.quantity) else 0) + sumFor g0.gid (creationDeltas ty rest) = _
      rw [if_pos hg0gid.symm]
    have hgfmem : ({ g0 with stock := g0.stock + sumFor g0.gid (creationDeltas ty (it :: rest)) } : Good) ∈ sp.goods := by
      rw [hgoods2]
      exact List.mem_map.mpr ⟨g0, hg0mem, rfl⟩
    have hdistsp : sp.goods.Pairwise (fun a b => a.gid ≠ b.gid) := by
      rw [hgoods]
      exact pairwise_foldAdjust hdist
    have hstockAll : 0 ≤ g0.stock + sumFor g0.gid (creationDeltas ty (it :: rest)) := by
      have := hsp _ hgfmem
      simpa using this
    have hsavenn : 0 ≤ (g0.stock + sumFor g0.gid (creationDeltas ty (it :: rest))) + (if ty = .purchase then it.quantity else -it.quantity) := by
      cases ty with
      | purchase =>
        rw [if_pos rfl]
        omega
      | sale =>
        have hδ : (if TransactionType.sale = TransactionType.purchase then -it.quantity else it.quantity) = it.quantity := if_neg (by decide)
        rw [hδ] at hsumr
        have hrest : 0 ≤ sumFor g0.gid (creationDeltas .sale rest) :=
          sumFor_creationDeltas_sale_nonneg rest g0.gid (fun x hx => (hitems2 x hx).1)
        have hg0s : 0 ≤ g0.stock := hl0 g0 hg0mem
        rw [if_neg (by decide), hsumr]
        omega
    have hsave := saveGood_adjust (g := { g0 with stock := g0.stock + sumFor g0.gid (creationDeltas ty (it :: rest)) }) (d := if ty = .purchase then it.quantity else -it.quantity) hdistsp hgfmem hsavenn
    have hcancel : (if ty = .purchase then -it.quantity else it.quantity) + (if ty = .purchase then it.quantity else -it.quantity) = 0 := by
      cases ty with
      | purchase => simp
      | sale => simp
    have hchain : adjust sp.goods ({ g0 with stock := g0.stock + sumFor g0.gid (creationDeltas ty (it :: rest)) } : Good).gid (if ty = .purchase then it.quantity else -it.quantity) = foldAdjust l0 (creationDeltas ty rest) := by
      show adjust sp.goods g0.gid _ = _
      rw [hg0gid, hgoods]
      show adjust (foldAdjust (adjust l0 it.good (if ty = .purchase then -it.quantity else it.quantity)) (creationDeltas ty rest)) it.good (if ty = .purchase then it.quantity else -it.quantity) = _
      rw [adjust_foldAdjust_comm, adjust_adjust_cancel2 _ _ _ _ hcancel]
    have hspNewnn : ∀ g ∈ foldAdjust l0 (creationDeltas ty rest), 0 ≤ g.stock := by
      intro g hgm
      obtain ⟨x, hx, hxe⟩ := mem_foldAdjust.mp hgm
      rw [← hxe]
      show 0 ≤ x.stock + sumFor x.gid (creationDeltas ty rest)
      cases ty with
      | sale =>
        have h1 := sumFor_creationDeltas_sale_nonneg rest x.gid (fun y hy => (hitems2 y hy).1)
        have h2 := hl0 x hx
        omega
      | purchase =>
        have hAll : 0 ≤ x.stock + sumFor x.gid (creationDeltas .purchase (it :: rest)) := by
          have hm : ({ x with stock := x.stock + sumFor x.gid (creationDeltas .purchase (it :: rest)) } : Good) ∈ sp.goods := by
            rw [hgoods2]
            exact List.mem_map.mpr ⟨x, hx, rfl⟩
          simpa using hsp _ hm
        have hdec : sumFor x.gid (creationDeltas .purchase (it :: rest)) = (if it.good = x.gid then -it.quantity else 0) + sumFor x.gid (creationDeltas .purchase rest) := by
          show (if it.good = x.gid then (if TransactionType.purchase = TransactionType.purchase then -it.quantity else it.quantity) else 0) + sumFor x.gid (creationDeltas .purchase rest) = _
          rw [if_pos (rfl : TransactionType.purchase = TransactionType.purchase)]
        by_cases hgx : it.good = x.gid
        · rw [hdec, if_pos hgx] at hAll
          omega
        · rw [hdec, if_neg hgx] at hAll
          omega
    have hihres := ih l0 ({ sp with goods := adjust sp.goods ({ g0 with stock := g0.stock + sumFor g0.gid (creationDeltas ty (it :: rest)) } : Good).gid (if ty = .purchase then it.quantity else -it.quantity) } : Store) (by show adjust _ _ _ = _; exact hchain) hdist hl0 (by show ∀ g ∈ adjust _ _ _, 0 ≤ g.stock; rw [hchain]; exact hspNewnn) hitems2
    rw [reverseItems_cons_found hfind, match_reverse_save_ok hsave, hihres]

lemma saveGood_error_neg {s : Store} {g : Good} {e : Err}
    (h : saveGood s g = .error e) : g.stock < 0 := by
  unfold saveGood at h
  split at h
  · assumption
  · cases h

lemma reverseItems_purchase_ok (items : List TransactionItem) :
    ∀ s : Store, stocksNonneg s → (∀ it ∈ items, 0 ≤ it.quantity) →
      (reverseItems s .purchase items).2 = .ok () := by
  induction items with
  | nil => intro s _ _; rfl
  | cons it rest ih =>
    intro s hs hq
    simp only [reverseItems]
    cases hfind : findGoodById s it.good with
    | none =>
      exact ih s hs (fun x hx => hq x (List.mem_cons_of_mem it hx))
    | some g =>
      simp only [reduceIte]
      cases hsv : saveGood s { g with stock := g.stock + it.quantity } with
      | error e =>
        have hneg := saveGood_error_neg hsv
        have hgmem : g ∈ s.goods := List.mem_of_find?_eq_some hfind
        have hgs : 0 ≤ g.stock := hs g hgmem
        have hq0 : 0 ≤ it.quantity := hq it (List.mem_cons_self it rest)
        have hneg2 : g.stock + it.quantity < 0 := hneg
        omega
      | ok s1 =>
        exact ih s1 (saveGood_stocksNonneg hsv hs) (fun x hx => hq x (List.mem_cons_of_mem it hx))

lemma saveTransactionNew_ok_inv {s s3 : Store} {t : Transaction}
    (h : saveTransactionNew s t = .ok s3) :
    validTransaction t = true ∧
      s3 = { s with transactions := s.transactions ++ [t], nextId := s.nextId + 1 } := by
  unfold saveTransactionNew at h
  split at h
  · rename_i hv
    refine ⟨hv, ?_⟩
    injection h with h2
    exact h2.symm
  · cases h

lemma createTransaction_ok_inv {s s2 : Store} {ty? : Option TransactionType} {n : String}
    {items : List RequestItem} {now : Int} {t : Transaction}
    (h : createTransaction s ty? n items now = (s2, .ok t)) :
    ∃ ty client procItems total s1,
      ty? = some ty ∧
      findClient s ty n = some client ∧
      processItemsInline s ty items = (s1, .ok (procItems, total)) ∧
      t = { tid := s1.nextId, type := ty, date := now, client := client.cid, clientModel := (if ty = .purchase then ClientModel.hunter else ClientModel.merchant), items := procItems, totalAmount := total } ∧
      validTransaction t = true ∧
      s2 = { s1 with transactions := s1.transactions ++ [t], nextId := s1.nextId + 1 } := by
  cases ty? with
  | none => simp [createTransaction] at h
  | some ty =>
    simp only [createTransaction] at h
    split at h
    · simp at h
    · rename_i client hcl
      split at h
      · simp at h
      · rename_i s1 procItems total hpr
        split at h
        · simp at h
        · rename_i s3 hsv
          obtain ⟨hval, hs3⟩ := saveTransactionNew_ok_inv hsv
          simp only [Prod.mk.injEq, Except.ok.injEq] at h
          obtain ⟨h1, h2⟩ := h
          refine ⟨ty, client, procItems, total, s1, rfl, hcl, hpr, h2.symm, ?_, ?_⟩
          · rw [← h2]
            exact hval
          · rw [← h1, hs3, h2]

lemma saveTransactionHooked_fst_nonneg (s : Store) (t : Transaction) (b : Bool)
    (hs : stocksNonneg s) : stocksNonneg (saveTransactionHooked s t b).1 := by
  unfold saveTransactionHooked
  split
  · split
    · split
      · rename_i s1 e hrun
        have := runSaveHook_fst_nonneg t.type t.items s hs
        rw [hrun] at this
        exact this
      · rename_i s1 u hrun
        have := runSaveHook_fst_nonneg t.type t.items s hs
        rw [hrun] at this
        exact this
    · exact hs
  · exact hs

lemma saveTransactionHooked_comp_nonneg {s s1 : Store} {t : Transaction} {b : Bool}
    {r : Except Err Unit} (h : saveTransactionHooked s t b = (s1, r))
    (hs : stocksNonneg s) : stocksNonneg s1 := by
  have h2 := saveTransactionHooked_fst_nonneg s t b hs
  rw [h] at h2
  exact h2

lemma createTransaction_fst_nonneg (s : Store) (ty? : Option TransactionType) (n : String)
    (items : List RequestItem) (now : Int) (hs : stocksNonneg s) :
    stocksNonneg (createTransaction s ty? n items now).1 := by
  cases ty? with
  | none => exact hs
  | some ty =>
    simp only [createTransaction]
    split
    · exact hs
    · split
      · rename_i s1 e hpr
        have := processItemsInline_fst_nonneg ty items s hs
        rw [hpr] at this
        exact this
      · rename_i s1 procItems total hpr
        have h1 : stocksNonneg s1 := by
          have := processItemsInline_fst_nonneg ty items s hs
          rw [hpr] at this
          exact this
        split
        · exact h1
        · rename_i s3 hsv
          obtain ⟨_, hs3⟩ := saveTransactionNew_ok_inv hsv
          show stocksNonneg s3
          rw [hs3]
          exact h1

lemma createTransactionHook_fst_nonneg (s : Store) (ty? : Option TransactionType) (n : String)
    (items : List RequestItem) (now : Int) (hs : stocksNonneg s) :
    stocksNonneg (createTransactionHook s ty? n items now).1 := by
  cases ty? with
  | none => exact hs
  | some ty =>
    simp only [createTransactionHook]
    split
    · exact hs
    · split
      · exact hs
      · rename_i procItems total hres
        split
        · rename_i s1 e hsv
          exact saveTransactionHooked_comp_nonneg hsv hs
        · rename_i s1 u hsv
          exact saveTransactionHooked_comp_nonneg hsv hs

lemma deleteTransaction_fst_nonneg (s : Store) (id : Nat) (hs : stocksNonneg s) :
    stocksNonneg (deleteTransaction s id).1 := by
  unfold deleteTransaction
  split
  · exact hs
  · rename_i t hfind
    split
    · rename_i s1 e hrev
      have := reverseItems_fst_nonneg t.type t.items s hs
      rw [hrev] at this
      exact this
    · rename_i s1 u hrev
      have h1 : stocksNonneg s1 := by
        have := reverseItems_fst_nonneg t.type t.items s hs
        rw [hrev] at this
        exact this
      exact h1

lemma updateTransaction_fst_nonneg (s : Store) (id : Nat) (ty? : Option TransactionType)
    (n : String) (items : List RequestItem) (hs : stocksNonneg s) :
    stocksNonneg (updateTransaction s id ty? n items).1 := by
  cases ty? with
  | none => exact hs
  | some ty =>
    simp only [updateTransaction]
    split
    · exact hs
    · rename_i t hfind
      split
      · exact hs
      · rename_i client hcl
        split
        · rename_i s1 e hrev
          have := reverseItems_fst_nonneg t.type t.items s hs
          rw [hrev] at this
          exact this
        · rename_i s1 u hrev
          have h1 : stocksNonneg s1 := by
            have := reverseItems_fst_nonneg t.type t.items s hs
            rw [hrev] at this
            exact this
          split
          · rename_i s2 e hpr
            have := processItemsInline_fst_nonneg ty items s1 h1
            rw [hpr] at this
            exact this
          · rename_i s2 procItems total hpr
            have h2 : stocksNonneg s2 := by
              have := processItemsInline_fst_nonneg ty items s1 h1
              rw [hpr] at this
              exact this
            split
            · rename_i s3 e hsv
              exact saveTransactionHooked_comp_nonneg hsv h2
            · rename_i s3 u hsv
              exact saveTransactionHooked_comp_nonneg hsv h2

lemma processItemsInline_total (ty : TransactionType) (reqs : List RequestItem) :
    ∀ (s s2 : Store) (txns : List TransactionItem) (total : Int),
      processItemsInline s ty reqs = (s2, .ok (txns, total)) →
      total = itemsTotal txns := by
  induction reqs with
  | nil =>
    intro s s2 txns total h
    simp only [processItemsInline, Prod.mk.injEq, Except.ok.injEq] at h
    obtain ⟨h1, h2, h3⟩ := h
    rw [← h2, ← h3]
    rfl
  | cons it rest ih =>
    intro s s2 txns total h
    simp only [processItemsInline] at h
    split at h
    · simp at h
    · rename_i g hfind
      split at h
      · simp at h
      · split at h
        · simp at h
        · rename_i s1 hsv
          split at h
          · simp at h
          · rename_i sm acc racc hrec
            simp only [Prod.mk.injEq, Except.ok.injEq] at h
            obtain ⟨hA, hB, hC⟩ := h
            rw [← hB, ← hC]
            have := ih s1 sm acc racc hrec
            unfold itemsTotal at this ⊢
            simp only [List.map_cons, List.sum_cons]
            rw [← this]
            ring

lemma validTransaction_facts {t : Transaction} (h : validTransaction t = true) :
    t.items ≠ [] ∧ (∀ it ∈ t.items, 1 ≤ it.quantity ∧ 0 ≤ it.priceAtTransaction) ∧
      0 ≤ t.totalAmount := by
  unfold validTransaction at h
  simp only [Bool.and_eq_true, Bool.not_eq_true', List.all_eq_true, decide_eq_true_eq] at h
  obtain ⟨⟨h1, h2⟩, h3⟩ := h
  have h1n : t.items ≠ [] := by
    intro hnil
    rw [hnil] at h1
    simp at h1
  exact ⟨h1n, fun it hit => h2 it hit, h3⟩

lemma find_appended_new {l : List Transaction} {t : Transaction}
    (hfresh : ∀ x ∈ l, x.tid ≠ t.tid) :
    (l ++ [t]).find? (fun x => x.tid == t.tid) = some t := by
  rw [List.find?_append]
  have h1 : l.find? (fun x => x.tid == t.tid) = none :=
    List.find?_eq_none.mpr (fun x hx => by simpa using hfresh x hx)
  rw [h1]
  simp [List.find?]

lemma filter_appended_new {l : List Transaction} {t : Transaction}
    (hfresh : ∀ x ∈ l, x.tid ≠ t.tid) :
    (l ++ [t]).filter (fun x => !(x.tid == t.tid)) = l := by
  rw [List.filter_append]
  have h1 : l.filter (fun x => !(x.tid == t.tid)) = l :=
    List.filter_eq_self.mpr (fun x hx => by simpa using hfresh x hx)
  have h2 : [t].filter (fun x => !(x.tid == t.tid)) = [] := by simp
  rw [h1, h2, List.append_nil]

lemma saveTransactionHooked_error_internal {s s1 : Store} {t : Transaction} {b : Bool}
    {e : Err} (h : saveTransactionHooked s t b = (s1, .error e)) : e = .internalStorage := by
  unfold saveTransactionHooked at h
  split at h
  · split at h
    · split at h
      · rename_i s2 e2 hrun
        simp only [Prod.mk.injEq] at h
        obtain ⟨h1, h2⟩ := h
        injection h2 with h3
        have : (runSaveHook s t.type t.items).2 = .error e2 := by
          rw [hrun]
        rw [h3] at this
        exact runSaveHook_error_internal t.type t.items s e this
      · simp at h
    · simp at h
  · simp only [Prod.mk.injEq] at h
    obtain ⟨h1, h2⟩ := h
    injection h2 with h3
    exact h3.symm

lemma any_gid_congr {l1 l2 : List Good}
    (h : l1.map (fun g => g.gid) = l2.map (fun g => g.gid)) (i : Nat) :
    l1.any (fun g => g.gid == i) = l2.any (fun g => g.gid == i) := by
  have h1 : (l1.any (fun g => g.gid == i) = true) ↔ (l2.any (fun g => g.gid == i) = true) := by
    simp only [List.any_eq_true, beq_iff_eq]
    constructor
    · rintro ⟨g, hg, hgi⟩
      have hin : i ∈ l2.map (fun g => g.gid) := by
        rw [← h]
        exact List.mem_map.mpr ⟨g, hg, hgi⟩
      rcases List.mem_map.mp hin with ⟨g2, hg2, hg2i⟩
      exact ⟨g2, hg2, hg2i⟩
    · rintro ⟨g, hg, hgi⟩
      have hin : i ∈ l1.map (fun g => g.gid) := by
        rw [h]
        exact List.mem_map.mpr ⟨g, hg, hgi⟩
      rcases List.mem_map.mp hin with ⟨g2, hg2, hg2i⟩
      exact ⟨g2, hg2, hg2i⟩
  cases hb1 : l1.any (fun g => g.gid == i) <;> cases hb2 : l2.any (fun g => g.gid == i) <;>
    simp_all

lemma runSaveHook_sale_ok (items : List TransactionItem) :
    ∀ s : Store, stocksNonneg s → (∀ it ∈ items, 0 ≤ it.quantity) →
      (runSaveHook s .sale items).2 = .ok () := by
  induction items with
  | nil => intro s _ _; rfl
  | cons it rest ih =>
    intro s hs hq
    simp only [runSaveHook]
    cases hfind : findGoodById s it.good with
    | none =>
      exact ih s hs (fun x hx => hq x (List.mem_cons_of_mem it hx))
    | some g =>
      simp only []
      have hif : (if TransactionType.sale = TransactionType.purchase then -it.quantity else it.quantity) = it.quantity := if_neg (by decide)
      rw [hif]
      cases hsv : saveGood s { g with stock := g.stock + it.quantity } with
      | error e =>
        have hneg := saveGood_error_neg hsv
        have hgmem : g ∈ s.goods := List.mem_of_find?_eq_some hfind
        have hgs : 0 ≤ g.stock := hs g hgmem
        have hq0 : 0 ≤ it.quantity := hq it (List.mem_cons_self it rest)
        have hneg2 : g.stock + it.quantity < 0 := hneg
        omega
      | ok s1 =>
        exact ih s1 (saveGood_stocksNonneg hsv hs) (fun x hx => hq x (List.mem_cons_of_mem it hx))

lemma runSaveHook_ok_goods (ty : TransactionType) (items : List TransactionItem) :
    ∀ (s s1 : Store),
      s.goods.Pairwise (fun a b => a.gid ≠ b.gid) →
      runSaveHook s ty items = (s1, .ok ()) →
      s1.goods = foldAdjust s.goods
        (creationDeltas ty (items.filter (fun it => s.goods.any (fun g => g.gid == it.good)))) := by
  induction items with
  | nil =>
    intro s s1 hdist h
    simp only [runSaveHook, Prod.mk.injEq] at h
    rw [← h.1]
    rfl
  | cons it rest ih =>
    intro s s1 hdist h
    simp only [runSaveHook] at h
    cases hfind : findGoodById s it.good with
    | none =>
      rw [hfind] at h
      have hany : s.goods.any (fun g => g.gid == it.good) = false := by
        have hn := List.find?_eq_none.mp hfind
        rw [List.any_eq_false]
        intro g hg
        exact hn g hg
      rw [List.filter_cons, hany]
      simp only [Bool.false_eq_true, if_false]
      exact ih s s1 hdist h
    | some g =>
      rw [hfind] at h
      simp only [] at h
      have hgmem : g ∈ s.goods := List.mem_of_find?_eq_some hfind
      have hggid : g.gid = it.good := by simpa using List.find?_some hfind
      have hany : s.goods.any (fun g => g.gid == it.good) = true := by
        rw [List.any_eq_true]
        exact ⟨g, hgmem, by simpa using hggid⟩
      cases hsv : saveGood s { g with stock := g.stock + (if ty = .purchase then -it.quantity else it.quantity) } with
      | error e =>
        rw [hsv] at h
        simp at h
      | ok s2 =>
        rw [hsv] at h
        simp only [] at h
        have hnn := (saveGood_ok_inv hsv).1
        have hadj := saveGood_adjust (g := g) (d := if ty = .purchase then -it.quantity else it.quantity) hdist hgmem hnn
        have hs2 : s2 = { s with goods := adjust s.goods g.gid (if ty = .purchase then -it.quantity else it.quantity) } := by
          have hh := hsv.symm.trans hadj
          simpa using hh
        have hdist2 : s2.goods.Pairwise (fun a b => a.gid ≠ b.gid) :=
          pairwise_gid_of_map_eq (saveGood_gid_map hsv) hdist
        have hmain := ih s2 s1 hdist2 h
        have hgidmap : s2.goods.map (fun g => g.gid) = s.goods.map (fun g => g.gid) :=
          saveGood_gid_map hsv
        have hfiltereq : rest.filter (fun it2 => s2.goods.any (fun g => g.gid == it2.good)) =
            rest.filter (fun it2 => s.goods.any (fun g => g.gid == it2.good)) := by
          apply List.filter_congr
          intro x _
          exact any_gid_congr hgidmap x.good
        rw [hfiltereq] at hmain
        rw [List.filter_cons, hany]
        simp only [if_true]
        show s1.goods = foldAdjust (adjust s.goods it.good (if ty = .purchase then -it.quantity else it.quantity)) (creationDeltas ty (rest.filter (fun it2 => s.goods.any (fun g => g.gid == it2.good))))
        rw [← hggid]
        rw [hmain, hs2]

lemma updateTransaction_ok_inv {s s2 : Store} {id : Nat} {ty? : Option TransactionType}
    {n : String} {items : List RequestItem} {t : Transaction}
    (h : updateTransaction s id ty? n items = (s2, .ok t)) :
    ∃ ty t0 client s1 sMid procItems total,
      ty? = some ty ∧
      findTransactionById s id = some t0 ∧
      findClient s ty n = some client ∧
      reverseItems s t0.type t0.items = (s1, .ok ()) ∧
      processItemsInline s1 ty items = (sMid, .ok (procItems, total)) ∧
      t.type = ty ∧ t.items = procItems ∧ t.totalAmount = total := by
  cases ty? with
  | none => simp [updateTransaction] at h
  | some ty =>
    simp only [updateTransaction] at h
    split at h
    · simp at h
    · rename_i t0 hfind
      split at h
      · simp at h
      · rename_i client hcl
        split at h
        · simp at h
        · rename_i s1 u hrev
          split at h
          · simp at h
          · rename_i sMid procItems total hpr
            split at h
            · simp at h
            · rename_i s3 u2 hsv
              simp only [Prod.mk.injEq, Except.ok.injEq] at h
              obtain ⟨h1, h2⟩ := h
              cases u
              refine ⟨ty, t0, client, s1, sMid, procItems, total, rfl, hfind, hcl, hrev, hpr, ?_, ?_, ?_⟩
              · rw [← h2]
              · rw [← h2]
              · rw [← h2]

lemma createTransactionHook_ok_inv {s s2 : Store} {ty? : Option TransactionType}
    {n : String} {items : List RequestItem} {now : Int} {t : Transaction}
    (h : createTransactionHook s ty? n items now = (s2, .ok t)) :
    ∃ ty procItems total,
      ty? = some ty ∧
      resolveItemsHook s ty items = .ok (procItems, total) ∧
      t.items = procItems ∧ t.totalAmount = total := by
  cases ty? with
  | none => simp [createTransactionHook] at h
  | some ty =>
    simp only [createTransactionHook] at h
    split at h
    · simp at h
    · rename_i client hcl
      split at h
      · simp at h
      · rename_i procItems total hres
        split at h
        · simp at h
        · rename_i s1 u hsv
          simp only [Prod.mk.injEq, Except.ok.injEq] at h
          obtain ⟨h1, h2⟩ := h
          refine ⟨ty, procItems, total, rfl, hres, ?_, ?_⟩
          · rw [← h2]
          · rw [← h2]

/-- Concrete fixture: a Good with ample stock. -/
def gAlpha : Good := { gid := 1, name := "alpha", value := 10, stock := 5 }

/-- Concrete fixture: a second Good. -/
def gGamma : Good := { gid := 2, name := "gamma", value := 3, stock := 5 }

/-- Concrete fixture: a Hunter client. -/
def cGeralt : Client := { cid := 1, name := "Geralt" }

/-- Concrete fixture: a store with two Goods and one Hunter. -/
def storeA : Store := { goods := [gAlpha, gGamma], hunters := [cGeralt], merchants := [], transactions := [], nextId := 100 }

/-- Concrete fixture: a stored purchase transaction over gGamma. -/
def txnPurch : Transaction := { tid := 50, type := .purchase, date := 0, client := 1, clientModel := .hunter, items := [{ good := 2, quantity := 1, priceAtTransaction := 3 }], totalAmount := 3 }

/-- Concrete fixture: storeA holding txnPurch. -/
def storeB : Store := { goods := [gAlpha, gGamma], hunters := [cGeralt], merchants := [], transactions := [txnPurch], nextId := 100 }

/-- Concrete fixture: a stored sale whose reversal exceeds current stock. -/
def txnSaleBig : Transaction := { tid := 60, type := .sale, date := 0, client := 1, clientModel := .merchant, items := [{ good := 1, quantity := 50, priceAtTransaction := 0 }], totalAmount := 0 }

/-- Concrete fixture: storeA holding txnSaleBig. -/
def storeC : Store := { goods := [gAlpha, gGamma], hunters := [cGeralt], merchants := [], transactions := [txnSaleBig], nextId := 100 }

/-- Concrete fixture: a stored purchase with one resolvable and one dangling item. -/
def txnDangling : Transaction := { tid := 70, type := .purchase, date := 0, client := 1, clientModel := .hunter, items := [{ good := 1, quantity := 2, priceAtTransaction := 10 }, { good := 99, quantity := 3, priceAtTransaction := 1 }], totalAmount := 23 }

/-- Concrete fixture: storeA holding txnDangling. -/
def storeD : Store := { goods := [gAlpha, gGamma], hunters := [cGeralt], merchants := [], transactions := [txnDangling], nextId := 100 }

/-- Concrete fixture: storeB after reversing txnPurch (gGamma back to 6). -/
def storeBrev : Store := { goods := [gAlpha, { gid := 2, name := "gamma", value := 3, stock := 6 }], hunters := [cGeralt], merchants := [], transactions := [txnPurch], nextId := 100 }

/-- C1 counterexample: in the inline-mutation router, a creation request
whose second item fails resolution leaves the first item already
applied: the request fails with GoodNotFound, yet the stock of alpha has
dropped from 5 to 3 in the resulting store, refuting the claim that a
failed creation mutates no stock. -/
theorem C1_counterexample :
    (createTransaction storeA (some .purchase) "Geralt" [⟨"alpha", 2⟩, ⟨"beta", 1⟩] 0).2 = .error .goodNotFound ∧
    gAlpha.stock = 5 ∧
    findGoodByName (createTransaction storeA (some .purchase) "Geralt" [⟨"alpha", 2⟩, ⟨"beta", 1⟩] 0).1 "alpha" = some { gid := 1, name := "alpha", value := 10, stock := 3 } :=
  ⟨rfl, rfl, rfl⟩

/-- C1 (amended): in the hook-model variant, any creation failure other
than a storage failure (in particular a Good-resolution or
stock-sufficiency failure, which occur before any save) leaves the store
untouched: resolution and validation of all items complete before any
stock mutation begins. -/
theorem createHook_failure_leaves_store_unchanged (s : Store) (ty? : Option TransactionType)
    (n : String) (items : List RequestItem) (now : Int) (e : Err)
    (he : (createTransactionHook s ty? n items now).2 = .error e)
    (hne : e ≠ .internalStorage) :
    (createTransactionHook s ty? n items now).1 = s := by
  cases ty? with
  | none => rfl
  | some ty =>
    simp only [createTransactionHook] at he ⊢
    cases hcl : findClient s ty n with
    | none => rfl
    | some client =>
      rw [hcl] at he
      simp only [] at he
      cases hres : resolveItemsHook s ty items with
      | error e2 => rfl
      | ok v =>
        obtain ⟨procItems, total⟩ := v
        rw [hres] at he
        simp only [] at he
        split at he
        · rename_i s1 e2 hsv
          have he3 : (Except.error e2 : Except Err Transaction) = Except.error e := he
          injection he3 with he4
          rw [← he4] at hne
          exact absurd (saveTransactionHooked_error_internal hsv) hne
        · rename_i s1 u hsv
          simp at he

/-- C1 witness: a hook-model creation that fails on the second item, at
a concrete store; the store is returned unchanged. -/
theorem C1_witness :
    (createTransactionHook storeA (some .purchase) "Geralt" [⟨"alpha", 2⟩, ⟨"beta", 1⟩] 0).2 = .error .goodNotFound ∧
    (createTransactionHook storeA (some .purchase) "Geralt" [⟨"alpha", 2⟩, ⟨"beta", 1⟩] 0).1 = storeA :=
  ⟨rfl, createHook_failure_leaves_store_unchanged storeA (some .purchase) "Geralt" [⟨"alpha", 2⟩, ⟨"beta", 1⟩] 0 .goodNotFound rfl (by decide)⟩

/-- C2 counterexample: an update whose second new item fails resolution
has already applied the first new item: the old stock of alpha was 5,
yet on the failure path it is 3, refuting the claim that no stock
mutation from any new item has been applied. -/
theorem C2_counterexample :
    (updateTransaction storeB 50 (some .purchase) "Geralt" [⟨"alpha", 2⟩, ⟨"beta", 1⟩]).2 = .error .goodNotFound ∧
    gAlpha.stock = 5 ∧
    findGoodByName (updateTransaction storeB 50 (some .purchase) "Geralt" [⟨"alpha", 2⟩, ⟨"beta", 1⟩]).1 "alpha" = some { gid := 1, name := "alpha", value := 10, stock := 3 } :=
  ⟨rfl, rfl, rfl⟩

/-- C2 (amended): when new-item validation fails after the reversal, the
handler responds with that failure from the store produced by the
new-item loop run on the reversed store: the reversal is applied exactly
once and never re-applied, the transaction record is untouched, and when
the first new item already fails resolution the store is exactly the
reversed-but-not-reapplied state; new items processed before the failing
one, however, remain applied. -/
theorem update_failure_reversed_not_reapplied (s s1 s2 : Store) (id : Nat)
    (ty : TransactionType) (n : String) (items : List RequestItem) (t : Transaction)
    (client : Client) (e : Err)
    (hfind : findTransactionById s id = some t)
    (hcl : findClient s ty n = some client)
    (hrev : reverseItems s t.type t.items = (s1, .ok ()))
    (hpr : processItemsInline s1 ty items = (s2, .error e)) :
    updateTransaction s id (some ty) n items = (s2, .error e) ∧
    s2.transactions = s.transactions ∧
    (∀ it rest, items = it :: rest → findGoodByName s1 it.goodName = none → s2 = s1) := by
  refine ⟨?_, ?_, ?_⟩
  · simp only [updateTransaction]
    rw [hfind]
    simp only []
    rw [hcl]
    simp only []
    rw [hrev]
    simp only []
    rw [hpr]
  · have hf1 := (processItemsInline_fst_frame ty items s1).2.2.1
    rw [hpr] at hf1
    have hf2 := (reverseItems_fst_frame t.type t.items s).2.2.1
    rw [hrev] at hf2
    exact hf1.trans hf2
  · intro it rest hit hnone
    subst hit
    simp only [processItemsInline] at hpr
    rw [hnone] at hpr
    simp only [Prod.mk.injEq] at hpr
    exact hpr.1.symm

/-- C2 witness: a concrete update whose single new item fails
resolution; the resulting store is exactly the reversed store, with the
record untouched. -/
theorem C2_witness :
    updateTransaction storeB 50 (some .purchase) "Geralt" [⟨"beta", 1⟩] = (storeBrev, .error .goodNotFound) ∧
    storeBrev.transactions = storeB.transactions :=
  have h := update_failure_reversed_not_reapplied storeB storeBrev storeBrev 50 .purchase "Geralt" [⟨"beta", 1⟩] txnPurch cGeralt .goodNotFound (by decide) (by decide) rfl rfl
  ⟨h.1, h.2.1⟩

/-- C3: every engine operation preserves the invariant that every Good
carries nonnegative stock, whatever the request and whether it succeeds
or fails: the bound is enforced at each mutation point by the schema
validator inside every save, never repaired afterwards. -/
theorem stock_nonneg_invariant (s : Store) (ty? : Option TransactionType) (n : String)
    (items : List RequestItem) (now : Int) (id : Nat) (hs : stocksNonneg s) :
    stocksNonneg (createTransaction s ty? n items now).1 ∧
    stocksNonneg (createTransactionHook s ty? n items now).1 ∧
    stocksNonneg (updateTransaction s id ty? n items).1 ∧
    stocksNonneg (deleteTransaction s id).1 :=
  ⟨createTransaction_fst_nonneg s ty? n items now hs,
   createTransactionHook_fst_nonneg s ty? n items now hs,
   updateTransaction_fst_nonneg s id ty? n items hs,
   deleteTransaction_fst_nonneg s id hs⟩

/-- C3 witness: the invariant instantiated at a concrete store and a
concrete request for all four operations. -/
theorem C3_witness :
    stocksNonneg storeB ∧
    (stocksNonneg (createTransaction storeB (some .purchase) "Geralt" [⟨"alpha", 2⟩] 0).1 ∧
     stocksNonneg (createTransactionHook storeB (some .purchase) "Geralt" [⟨"alpha", 2⟩] 0).1 ∧
     stocksNonneg (updateTransaction storeB 50 (some .purchase) "Geralt" [⟨"alpha", 2⟩]).1 ∧
     stocksNonneg (deleteTransaction storeB 50).1) :=
  ⟨by show ∀ g ∈ storeB.goods, 0 ≤ g.stock; decide,
   stock_nonneg_invariant storeB (some .purchase) "Geralt" [⟨"alpha", 2⟩] 0 50
     (by show ∀ g ∈ storeB.goods, 0 ≤ g.stock; decide)⟩

/-- C4 counterexample: an update whose id does not resolve and whose
type is invalid responds InvalidTransactionType, not TransactionNotFound:
the PUT handler validates the type before looking the id up, refuting
the claimed precedence. -/
theorem C4_counterexample :
    findTransactionById storeA 999 = none ∧
    updateTransaction storeA 999 none "Geralt" [] = (storeA, .error .invalidTransactionType) :=
  ⟨rfl, rfl⟩

/-- C4 (amended): the update handler validates the type first: an
absent or unrecognized type always yields InvalidTransactionType,
whatever the id; TransactionNotFound is produced only once the type is
valid and the id does not resolve. -/
theorem update_type_check_precedes_lookup (s : Store) (id : Nat) (n : String)
    (items : List RequestItem) :
    updateTransaction s id none n items = (s, .error .invalidTransactionType) ∧
    (∀ ty : TransactionType, findTransactionById s id = none →
      updateTransaction s id (some ty) n items = (s, .error .transactionNotFound)) := by
  constructor
  · rfl
  · intro ty hfind
    simp only [updateTransaction]
    rw [hfind]

/-- C4 witness: at a concrete store and unresolvable id, a valid type
yields TransactionNotFound. -/
theorem C4_witness :
    findTransactionById storeA 999 = none ∧
    updateTransaction storeA 999 (some .purchase) "Geralt" [] = (storeA, .error .transactionNotFound) :=
  ⟨rfl, (update_type_check_precedes_lookup storeA 999 "Geralt" []).2 .purchase rfl⟩

/-- C5: a successful creation followed immediately by deletion of the
created record succeeds and restores every affected Good to its exact
pre-creation state, and leaves the transaction collection as it was. -/
theorem create_then_delete_restores (s s2 : Store) (ty? : Option TransactionType)
    (n : String) (items : List RequestItem) (now : Int) (t : Transaction)
    (hdist : s.goods.Pairwise (fun a b => a.gid ≠ b.gid))
    (hfresh : tidsFresh s)
    (hs : stocksNonneg s)
    (h : createTransaction s ty? n items now = (s2, .ok t)) :
    (deleteTransaction s2 t.tid).2 = .ok () ∧
    (deleteTransaction s2 t.tid).1.goods = s.goods ∧
    (deleteTransaction s2 t.tid).1.transactions = s.transactions := by
  obtain ⟨ty, client, procItems, total, s1, hty, hcl, hpr, ht, hval, hs2⟩ :=
    createTransaction_ok_inv h
  obtain ⟨hgoods1, htotal, hpres⟩ := processItemsInline_ok ty items s s1 procItems total hdist hpr
  have hfr := processItemsInline_fst_frame ty items s
  rw [hpr] at hfr
  have htrans1 : s1.transactions = s.transactions := hfr.2.2.1
  have hnext : s1.nextId = s.nextId := hfr.2.2.2
  have hnn1 : stocksNonneg s1 := by
    have hloc := processItemsInline_fst_nonneg ty items s hs
    rw [hpr] at hloc
    exact hloc
  have htid : t.tid = s1.nextId := by rw [ht]
  have htype : t.type = ty := by rw [ht]
  have hitemsT : t.items = procItems := by rw [ht]
  have hne : ∀ x ∈ s1.transactions, x.tid ≠ t.tid := by
    intro x hx
    rw [htrans1] at hx
    have hlt := hfresh x hx
    rw [htid, hnext]
    omega
  rw [hs2]
  have hfindT : findTransactionById { s1 with transactions := s1.transactions ++ [t], nextId := s1.nextId + 1 } t.tid = some t := by
    show (s1.transactions ++ [t]).find? (fun x => x.tid == t.tid) = some t
    exact find_appended_new hne
  have hq : ∀ it ∈ procItems, 0 ≤ it.quantity ∧ hasGid s.goods it.good := by
    intro it hit
    refine ⟨?_, hpres it hit⟩
    have hfacts := (validTransaction_facts hval).2.1 it (by rw [hitemsT]; exact hit)
    omega
  have hrev :
      reverseItems { s1 with transactions := s1.transactions ++ [t], nextId := s1.nextId + 1 } t.type t.items =
        ({ { s1 with transactions := s1.transactions ++ [t], nextId := s1.nextId + 1 } with goods := s.goods }, .ok ()) := by
    rw [htype, hitemsT]
    apply reverseItems_restores ty procItems s.goods _ ?_ hdist hs ?_ hq
    · show s1.goods = foldAdjust s.goods (creationDeltas ty procItems)
      exact hgoods1
    · show ∀ g ∈ s1.goods, 0 ≤ g.stock
      exact hnn1
  have hstep : deleteTransaction { s1 with transactions := s1.transactions ++ [t], nextId := s1.nextId + 1 } t.tid =
      ({ goods := s.goods, hunters := s1.hunters, merchants := s1.merchants, transactions := (s1.transactions ++ [t]).filter (fun x => !(x.tid == t.tid)), nextId := s1.nextId + 1 }, .ok ()) := by
    unfold deleteTransaction
    rw [hfindT]
    simp only []
    rw [hrev]
  rw [hstep]
  refine ⟨rfl, rfl, ?_⟩
  show (s1.transactions ++ [t]).filter (fun x => !(x.tid == t.tid)) = s.transactions
  rw [filter_appended_new hne]
  exact htrans1

/-- Concrete fixture: the transaction created by the C5 witness run. -/
def twC5 : Transaction := { tid := 100, type := .purchase, date := 7, client := 1, clientModel := .hunter, items := [{ good := 1, quantity := 2, priceAtTransaction := 10 }], totalAmount := 20 }

/-- Concrete fixture: storeA right after the C5 witness creation. -/
def s2wC5 : Store := { goods := [{ gid := 1, name := "alpha", value := 10, stock := 3 }, gGamma], hunters := [cGeralt], merchants := [], transactions := [twC5], nextId := 101 }

/-- C5 witness: a concrete creation (purchase of two alpha) followed by
deletion of the created record restores the store. -/
theorem C5_witness :
    createTransaction storeA (some .purchase) "Geralt" [⟨"alpha", 2⟩] 7 = (s2wC5, .ok twC5) ∧
    ((deleteTransaction s2wC5 twC5.tid).2 = .ok () ∧
     (deleteTransaction s2wC5 twC5.tid).1.goods = storeA.goods ∧
     (deleteTransaction s2wC5 twC5.tid).1.transactions = storeA.transactions) :=
  ⟨rfl,
   create_then_delete_restores storeA s2wC5 (some .purchase) "Geralt" [⟨"alpha", 2⟩] 7 twC5
     (by show List.Pairwise _ storeA.goods; decide)
     (by show ∀ x ∈ storeA.transactions, x.tid < storeA.nextId; decide)
     (by show ∀ g ∈ storeA.goods, 0 ≤ g.stock; decide)
     rfl⟩

/-- C6: every Transaction produced by a successful create (either
variant) or update carries a totalAmount equal to the sum over its
items of quantity times the captured price snapshot. -/
theorem totalAmount_correct (s s2 : Store) (ty? : Option TransactionType) (n : String)
    (items : List RequestItem) (now : Int) (id : Nat) (t : Transaction) :
    (createTransaction s ty? n items now = (s2, .ok t) → t.totalAmount = itemsTotal t.items) ∧
    (createTransactionHook s ty? n items now = (s2, .ok t) → t.totalAmount = itemsTotal t.items) ∧
    (updateTransaction s id ty? n items = (s2, .ok t) → t.totalAmount = itemsTotal t.items) := by
  refine ⟨?_, ?_, ?_⟩
  · intro h
    obtain ⟨ty, client, procItems, total, s1, hty, hcl, hpr, ht, hval, hs2⟩ :=
      createTransaction_ok_inv h
    have htt := processItemsInline_total ty items s s1 procItems total hpr
    rw [ht]
    show total = itemsTotal procItems
    exact htt
  · intro h
    obtain ⟨ty, procItems, total, hty, hres, hitems, htotal⟩ := createTransactionHook_ok_inv h
    rw [hitems, htotal]
    exact resolveItemsHook_ok ty items s procItems total hres
  · intro h
    obtain ⟨ty, t0, client, s1, sMid, procItems, total, hty, hfind, hcl, hrev, hpr, htype, hitems, htotal⟩ :=
      updateTransaction_ok_inv h
    rw [hitems, htotal]
    exact processItemsInline_total ty items s1 sMid procItems total hpr

/-- Concrete fixture: the transaction created by the C6 witness run. -/
def twC6 : Transaction := { tid := 100, type := .purchase, date := 7, client := 1, clientModel := .hunter, items := [{ good := 1, quantity := 2, priceAtTransaction := 10 }, { good := 2, quantity := 1, priceAtTransaction := 3 }], totalAmount := 23 }

/-- Concrete fixture: storeA after the C6 witness creation. -/
def s2wC6 : Store := { goods := [{ gid := 1, name := "alpha", value := 10, stock := 3 }, { gid := 2, name := "gamma", value := 3, stock := 4 }], hunters := [cGeralt], merchants := [], transactions := [twC6], nextId := 101 }

/-- C6 witness: the created transaction of a concrete two-item purchase
satisfies the total equation. -/
theorem C6_witness : twC6.totalAmount = itemsTotal twC6.items :=
  (totalAmount_correct storeA s2wC6 (some .purchase) "Geralt" [⟨"alpha", 2⟩, ⟨"gamma", 1⟩] 7 0 twC6).1 rfl

/-- C7 counterexample: deleting an existing sale whose reversal would
drive the stock of its Good negative aborts with a storage error and the
Transaction record is kept, so the record is not removed regardless: the
unconditional removal part of the claim fails. -/
theorem C7_counterexample :
    (deleteTransaction storeC 60).2 = .error .internalStorage ∧
    findTransactionById (deleteTransaction storeC 60).1 60 = some txnSaleBig ∧
    txnSaleBig.type = .sale :=
  ⟨rfl, rfl, rfl⟩

/-- C7 (amended): a missing Good never aborts a deletion: for a
purchase transaction, whose per-item reversal only adds stock, deletion
always succeeds, skipping unresolvable Goods and removing the record;
only a sale-item reversal that would drive a stock negative can abort
the deletion (storage error, record kept), as the counterexample shows. -/
theorem delete_missing_good_never_aborts (s : Store) (id : Nat) (t : Transaction)
    (hfind : findTransactionById s id = some t)
    (htype : t.type = .purchase)
    (hq : ∀ it ∈ t.items, 0 ≤ it.quantity)
    (hs : stocksNonneg s) :
    (deleteTransaction s id).2 = .ok () ∧
    (deleteTransaction s id).1.transactions = s.transactions.filter (fun x => !(x.tid == id)) := by
  unfold deleteTransaction
  rw [hfind]
  simp only []
  cases hrev : reverseItems s t.type t.items with
  | mk s1 r =>
    have hok : (reverseItems s t.type t.items).2 = .ok () := by
      rw [htype]
      exact reverseItems_purchase_ok t.items s hs hq
    rw [hrev] at hok
    have hr : r = .ok () := hok
    subst hr
    constructor
    · rfl
    · show s1.transactions.filter _ = _
      have hf := (reverseItems_fst_frame t.type t.items s).2.2.1
      rw [hrev] at hf
      have hf2 : s1.transactions = s.transactions := hf
      rw [hf2]

/-- C7 witness: deleting a purchase transaction one of whose Goods no
longer exists succeeds and removes the record, with the missing Good
skipped. -/
theorem C7_witness :
    findTransactionById storeD 70 = some txnDangling ∧
    findGoodById storeD 99 = none ∧
    ((deleteTransaction storeD 70).2 = .ok () ∧
     (deleteTransaction storeD 70).1.transactions = storeD.transactions.filter (fun x => !(x.tid == 70))) :=
  ⟨rfl, rfl,
   delete_missing_good_never_aborts storeD 70 txnDangling rfl rfl
     (by decide) (by show ∀ g ∈ storeD.goods, 0 ≤ g.stock; decide)⟩

/-- C8: client resolution of the creation handler: an absent or
unrecognized type fails InvalidTransactionType for every store, before
any lookup can matter; a purchase resolves the name against the Hunter
collection and a sale against the Merchant collection, failing
ClientNotFound when the name is absent there; on success the stored
discriminator and client reference come from the matching collection. -/
theorem create_client_resolution (s : Store) (n : String) (items : List RequestItem) (now : Int) :
    createTransaction s none n items now = (s, .error .invalidTransactionType) ∧
    (s.hunters.find? (fun c => c.name == n) = none →
      createTransaction s (some .purchase) n items now = (s, .error .clientNotFound)) ∧
    (s.merchants.find? (fun c => c.name == n) = none →
      createTransaction s (some .sale) n items now = (s, .error .clientNotFound)) ∧
    (∀ s2 t, createTransaction s (some .purchase) n items now = (s2, .ok t) →
      t.clientModel = .hunter ∧ ∃ c, s.hunters.find? (fun c2 => c2.name == n) = some c ∧ t.client = c.cid) ∧
    (∀ s2 t, createTransaction s (some .sale) n items now = (s2, .ok t) →
      t.clientModel = .merchant ∧ ∃ c, s.merchants.find? (fun c2 => c2.name == n) = some c ∧ t.client = c.cid) := by
  refine ⟨rfl, ?_, ?_, ?_, ?_⟩
  · intro h
    simp only [createTransaction]
    have hcl : findClient s .purchase n = none := h
    rw [hcl]
  · intro h
    simp only [createTransaction]
    have hcl : findClient s .sale n = none := h
    rw [hcl]
  · intro s2 t h
    obtain ⟨ty, client, procItems, total, s1, hty, hcl, hpr, ht, hval, hs2⟩ :=
      createTransaction_ok_inv h
    have hty2 : ty = .purchase := by
      injection hty with h2
      exact h2.symm
    subst hty2
    refine ⟨?_, client, hcl, by rw [ht]⟩
    rw [ht]
    show (if TransactionType.purchase = TransactionType.purchase then ClientModel.hunter else ClientModel.merchant) = ClientModel.hunter
    rw [if_pos rfl]
  · intro s2 t h
    obtain ⟨ty, client, procItems, total, s1, hty, hcl, hpr, ht, hval, hs2⟩ :=
      createTransaction_ok_inv h
    have hty2 : ty = .sale := by
      injection hty with h2
      exact h2.symm
    subst hty2
    refine ⟨?_, client, hcl, by rw [ht]⟩
    rw [ht]
    show (if TransactionType.sale = TransactionType.purchase then ClientModel.hunter else ClientModel.merchant) = ClientModel.merchant
    rw [if_neg (by decide)]

/-- C8 witness: a purchase by a name present only outside the Hunter
collection fails ClientNotFound at a concrete store. -/
theorem C8_witness :
    storeA.hunters.find? (fun c => c.name == "Zoltan") = none ∧
    createTransaction storeA (some .purchase) "Zoltan" [⟨"alpha", 1⟩] 0 = (storeA, .error .clientNotFound) :=
  ⟨rfl, (create_client_resolution storeA "Zoltan" [⟨"alpha", 1⟩] 0).2.1 rfl⟩

/-- C9: the date-range query fails MissingParameter when either bound
is absent; with both bounds it always answers with a list (possibly
empty, never an error) holding exactly the stored transactions whose
date lies within the inclusive bounds and whose type matches the filter
whenever a valid type was supplied. -/
theorem findByDateRange_spec (s : Store) (st en : Int) (raw : Option String) :
    (∀ e? : Option Int, findByDateRange s none e? raw = .error .missingParameter) ∧
    (∀ st? : Option Int, findByDateRange s st? none raw = .error .missingParameter) ∧
    (∃ l, findByDateRange s (some st) (some en) raw = .ok l) ∧
    (∀ l t, findByDateRange s (some st) (some en) raw = .ok l →
      (t ∈ l ↔ t ∈ s.transactions ∧ st ≤ t.date ∧ t.date ≤ en ∧
        ∀ ty, parseTypeFilter raw = some ty → t.type = ty)) := by
  refine ⟨?_, ?_, ⟨_, rfl⟩, ?_⟩
  · intro e?
    cases e? <;> rfl
  · intro st?
    cases st? <;> rfl
  · intro l t h
    have hl : l = s.transactions.filter (dateRangeMatch st en (parseTypeFilter raw)) := by
      injection h with h2
      exact h2.symm
    subst hl
    rw [List.mem_filter]
    unfold dateRangeMatch
    cases hty : parseTypeFilter raw with
    | none =>
      simp [Bool.and_eq_true, decide_eq_true_iff]
    | some ty0 =>
      simp only [Bool.and_eq_true, decide_eq_true_eq, beq_iff_eq]
      constructor
      · rintro ⟨h1, ⟨h2, h3⟩, h4⟩
        exact ⟨h1, h2, h3, fun ty hty2 => by injection hty2 with h5; rw [← h5]; exact h4⟩
      · rintro ⟨h1, h2, h3, h4⟩
        exact ⟨h1, ⟨h2, h3⟩, h4 ty0 rfl⟩

/-- C9 witness: a stored transaction with date inside concrete bounds
is returned, instantiating the membership characterization. -/
theorem C9_witness :
    txnPurch ∈ [txnPurch] ↔ txnPurch ∈ storeB.transactions ∧ (-1 : Int) ≤ txnPurch.date ∧
      txnPurch.date ≤ 1 ∧ ∀ ty, parseTypeFilter none = some ty → txnPurch.type = ty :=
  (findByDateRange_spec storeB (-1) 1 none).2.2.2 [txnPurch] txnPurch rfl

/-- C10: the pre-save hook mutates stock only on a new document:
re-saving an existing Transaction leaves every Good untouched; a new
save applies the signed delta exactly to the resolvable items, silently
skipping items whose Good no longer resolves; a sale save can never be
aborted by the hook when the document passes validation and stocks are
nonnegative. -/
theorem save_hook_scope (s : Store) (t : Transaction) :
    ((saveTransactionHooked s t false).1.goods = s.goods) ∧
    (∀ s1, saveTransactionHooked s t true = (s1, .ok ()) →
      s.goods.Pairwise (fun a b => a.gid ≠ b.gid) →
      s1.goods = foldAdjust s.goods (creationDeltas t.type (t.items.filter (fun it => s.goods.any (fun g => g.gid == it.good))))) ∧
    (t.type = .sale → validTransaction t = true → stocksNonneg s →
      (saveTransactionHooked s t true).2 = .ok ()) := by
  refine ⟨?_, ?_, ?_⟩
  · unfold saveTransactionHooked
    split
    · rfl
    · rfl
  · intro s1 h hdist
    unfold saveTransactionHooked at h
    split at h
    · split at h
      · split at h
        · simp at h
        · rename_i s2 u hrun
          simp only [Prod.mk.injEq] at h
          obtain ⟨h1, _⟩ := h
          cases u
          have hmain := runSaveHook_ok_goods t.type t.items s s2 hdist hrun
          rw [← h1]
          show s2.goods = _
          exact hmain
      · rename_i hfalse
        exact absurd rfl hfalse
    · simp at h
  · intro hsale hval hs
    unfold saveTransactionHooked
    rw [if_pos hval, if_pos rfl]
    have hq : ∀ it ∈ t.items, 0 ≤ it.quantity := by
      intro it hit
      have := (validTransaction_facts hval).2.1 it hit
      omega
    have hok : (runSaveHook s t.type t.items).2 = .ok () := by
      rw [hsale]
      exact runSaveHook_sale_ok t.items s hs hq
    cases hrun : runSaveHook s t.type t.items with
    | mk s2 r =>
      rw [hrun] at hok
      have hr : r = .ok () := hok
      subst hr
      rfl

/-- Concrete fixture: a sale transaction with one resolvable and one
dangling item, used by the C10 witness. -/
def txnHookW : Transaction := { tid := 80, type := .sale, date := 0, client := 1, clientModel := .merchant, items := [{ good := 1, quantity := 2, priceAtTransaction := 10 }, { good := 99, quantity := 3, priceAtTransaction := 1 }], totalAmount := 23 }

/-- Concrete fixture: storeA after a new hooked save of txnHookW. -/
def s1wC10 : Store := { goods := [{ gid := 1, name := "alpha", value := 10, stock := 7 }, gGamma], hunters := [cGeralt], merchants := [], transactions := [txnHookW], nextId := 101 }

/-- C10 witness: at a concrete store, a non-new save leaves goods
untouched; a new save of a sale with one dangling item succeeds and
mutates exactly the resolvable item. -/
theorem C10_witness :
    ((saveTransactionHooked storeA txnHookW false).1.goods = storeA.goods) ∧
    s1wC10.goods = foldAdjust storeA.goods (creationDeltas txnHookW.type (txnHookW.items.filter (fun it => storeA.goods.any (fun g => g.gid == it.good)))) ∧
    (saveTransactionHooked storeA txnHookW true).2 = .ok () :=
  ⟨(save_hook_scope storeA txnHookW).1,
   (save_hook_scope storeA txnHookW).2.1 s1wC10 rfl (by show List.Pairwise _ storeA.goods; decide),
   (save_hook_scope storeA txnHookW).2.2 rfl (by decide) (by show ∀ g ∈ storeA.goods, 0 ≤ g.stock; decide)⟩

end Witcher
